import Mathlib

/-!
Shallow embedding of `src/lab-5-transformers/lab5-code/train_cifar.py`.

The script trains a CNN on CIFAR-10.  The parts embedded here are the parts
the claims are about: the metric functions `compute_accuracy` and
`compute_per_class_accuracy`, the shape behaviour of `CNN.forward`, the
run-directory probing of `get_summary_writer_log_dir`, and the control flow
of `Trainer.train` / `Trainer.validate` (step counter, validation schedule,
train/eval mode switching, metric emission).

Conventions:
* Label / prediction arrays are `List Nat` of class indices, ratios are `ℚ`.
* A Python exception is an `Except PyError` error value.
* numpy arrays of fixed length `K` created by `np.zeros` are embedded as
  functions `Fin K → ℚ`; an index that is out of bounds raises
  `PyError.indexError` exactly where numpy would.
* Tensors of float data are embedded at the shape level only (the claims
  about `CNN.forward` are shape claims); the trainer's numeric metric
  values that do not matter to any claim are passed in as parameters.
-/

/-- The Python exceptions the embedded code can raise. -/
inductive PyError
  | assertionError
  | zeroDivisionError
  | indexError
  deriving DecidableEq

deriving instance DecidableEq for Except

/-! ## Metrics utilities (train_cifar.py lines 359-381) -/

/-- Embeds `compute_accuracy` (lines 359-368):
`assert len(labels) == len(preds)` raises `AssertionError` on mismatched
lengths; `float((labels == preds).sum()) / len(labels)` counts positions
where the two sequences agree and divides by the length, raising
`ZeroDivisionError` when `len(labels) == 0`. -/
def compute_accuracy (labels preds : List Nat) : Except PyError ℚ :=
  if labels.length = preds.length then
    if labels.length = 0 then
      Except.error PyError.zeroDivisionError
    else
      Except.ok (((labels.zip preds).countP (fun q => q.1 == q.2) : ℚ) / (labels.length : ℚ))
  else
    Except.error PyError.assertionError

/-- `arr[i] = v` on a numpy array of length `K` embedded as `Fin K → ℚ`. -/
def setFin {K : Nat} (f : Fin K → ℚ) (i : Fin K) (v : ℚ) : Fin K → ℚ :=
  fun j => if j = i then v else f j

/-- Embeds the loop of `compute_per_class_accuracy` (lines 377-380):
for each `(label, pred)` pair, `f_v[labels[i]] += 1`, and if
`labels[i] == preds[i]` also `classes[labels[i]] += 1`.  An index `l ≥ K`
(with `K = len(np.unique(labels))`, the length of both numpy arrays) raises
`IndexError` as numpy does. -/
def perClassLoop (K : Nat) (classes f_v : Fin K → ℚ) :
    List (Nat × Nat) → Except PyError ((Fin K → ℚ) × (Fin K → ℚ))
  | [] => Except.ok (classes, f_v)
  | (l, p) :: rest =>
    if h : l < K then
      perClassLoop K
        (if l = p then setFin classes ⟨l, h⟩ (classes ⟨l, h⟩ + 1) else classes)
        (setFin f_v ⟨l, h⟩ (f_v ⟨l, h⟩ + 1))
        rest
    else Except.error PyError.indexError

/-- Embeds `compute_per_class_accuracy` (lines 371-381):
`assert len(labels) == len(preds)`; `classes = np.zeros(len(np.unique(labels)))`
and `f_v = np.zeros(len(classes))` are zero arrays of length
`K = number of distinct labels`; after the loop it returns the elementwise
quotient `classes / f_v`.  (On success every `f_v` entry is positive — the
labels necessarily cover `{0, …, K-1}` — so the `0/0 = NaN` branch of the
numpy division is never taken; `ℚ` division is used for the quotient.) -/
def compute_per_class_accuracy (labels preds : List Nat) : Except PyError (List ℚ) :=
  if labels.length = preds.length then
    match perClassLoop labels.dedup.length (fun _ => 0) (fun _ => 0) (labels.zip preds) with
    | Except.ok (classes, f_v) => Except.ok (List.ofFn (fun c => classes c / f_v c))
    | Except.error e => Except.error e
  else
    Except.error PyError.assertionError

/-- Embeds the overall test-accuracy value `Trainer.validate` writes to the
summary writer (lines 346-350): `accuracy.sum() / len(accuracy)` where
`accuracy = compute_per_class_accuracy(labels, preds)`.  The error branch is
the propagated-exception path and is never a value that gets written. -/
def testAccuracyValue (labels preds : List Nat) : ℚ :=
  match compute_per_class_accuracy labels preds with
  | Except.ok acc => acc.sum / (acc.length : ℚ)
  | Except.error _ => 0

/-! ## CNN shape semantics (train_cifar.py lines 148-204)

The claim about `CNN.forward` is a shape claim, so the network is embedded
at the shape level: each layer is the partial shape function PyTorch gives
it (an `Option` result, `none` on a shape the layer rejects). -/

/-- Shape of a rank-4 tensor `(batch, channel, height, width)`. -/
structure Shape4 where
  n : Nat
  c : Nat
  h : Nat
  w : Nat
  deriving DecidableEq

/-- Shape of a rank-2 tensor `(batch, features)`. -/
structure Shape2 where
  n : Nat
  f : Nat
  deriving DecidableEq

/-- Shape behaviour of `nn.Conv2d(in_channels, out_channels, kernel_size=(k,k),
padding=(p,p))`: requires the channel count to match and the padded input to
be at least the kernel; output spatial size is `H + 2p - k + 1`. -/
def conv2dShape (inC outC k p : Nat) (s : Shape4) : Option Shape4 :=
  if s.c = inC ∧ k ≤ s.h + 2 * p ∧ k ≤ s.w + 2 * p then
    some ⟨s.n, outC, s.h + 2 * p - k + 1, s.w + 2 * p - k + 1⟩
  else none

/-- Shape behaviour of `nn.BatchNorm2d(num_features)`: requires the channel
count to equal `num_features` and preserves the shape. -/
def batchNorm2dShape (features : Nat) (s : Shape4) : Option Shape4 :=
  if s.c = features then some s else none

/-- Shape behaviour of `nn.MaxPool2d(kernel_size=(2,2), stride=(2,2))`:
output spatial size is `(H - 2) / 2 + 1`. -/
def maxPool2Shape (s : Shape4) : Option Shape4 :=
  if 2 ≤ s.h ∧ 2 ≤ s.w then
    some ⟨s.n, s.c, (s.h - 2) / 2 + 1, (s.w - 2) / 2 + 1⟩
  else none

/-- Shape behaviour of `torch.flatten(x, start_dim=1)` on a rank-4 tensor. -/
def flattenShape (s : Shape4) : Shape2 :=
  ⟨s.n, s.c * s.h * s.w⟩

/-- Shape behaviour of `nn.Linear(inF, outF)`. -/
def linearShape (inF outF : Nat) (s : Shape2) : Option Shape2 :=
  if s.f = inF then some ⟨s.n, outF⟩ else none

/-- Shape behaviour of `nn.BatchNorm1d(num_features)`. -/
def batchNorm1dShape (features : Nat) (s : Shape2) : Option Shape2 :=
  if s.f = features then some s else none

/-- The constructor arguments of `CNN.__init__` (line 149).  The layer sizes
inside `__init__` are fixed numerals; in particular `self.fc2 =
nn.Linear(1024, 10)` (line 182) uses the literal `10`, not `class_count`. -/
structure CNN where
  height : Nat
  width : Nat
  channels : Nat
  class_count : Nat
  deriving DecidableEq

/-- Shape behaviour of `CNN.forward` (lines 189-204), layer by layer:
`conv1` (channels→32, 5×5, pad 2), `batch1` (32), ReLU (shape-preserving),
`pool1` (2×2, stride 2), `conv2` (32→64, 5×5, pad 2), `batch2` (64), ReLU,
`pool2`, flatten from dim 1, dropout (shape-preserving), `fc1`
(4096→1024), `batchFc` (1024), dropout, `fc2` (1024→10). -/
def CNN.forwardShape (m : CNN) (s : Shape4) : Option Shape2 := do
  let x ← conv2dShape m.channels 32 5 2 s
  let x ← batchNorm2dShape 32 x
  let x ← maxPool2Shape x
  let x ← conv2dShape 32 64 5 2 x
  let x ← batchNorm2dShape 64 x
  let x ← maxPool2Shape x
  let x2 := flattenShape x
  let x2 ← linearShape 4096 1024 x2
  let x2 ← batchNorm1dShape 1024 x2
  linearShape 1024 10 x2

/-! ## Run-directory naming (train_cifar.py lines 384-414) -/

/-- The path `args.log_dir / (tb_log_dir_prefix + str(i))`.  The descriptive
part `tb_log_dir_prefix` (built from the hyperparameters, lines 396-405) is
abstracted as the string `pre`; the claims quantify over every
hyperparameter configuration, i.e. over every `pre`. -/
def mkRunPath (logDir pre : String) (i : Nat) : String :=
  logDir ++ "/" ++ pre ++ toString i

/-- Embeds the probing loop of `get_summary_writer_log_dir` (lines 407-414):
`while i < 1000: if not path(i).exists(): return path(i); i += 1`, and after
the loop returns the last assigned path, which is `path(999)` (the loop ran
its final iteration with `i = 999`).  `ex` is the filesystem's
`Path.exists` predicate. -/
def probeRunDir (ex : String → Bool) (logDir pre : String) (i : Nat) : String :=
  if _h : i < 1000 then
    if ex (mkRunPath logDir pre i) then probeRunDir ex logDir pre (i + 1)
    else mkRunPath logDir pre i
  else mkRunPath logDir pre 999
termination_by 1000 - i

/-- Embeds `get_summary_writer_log_dir` for a given filesystem `ex`, log
directory and descriptive prefix: the probing loop started at `i = 0`. -/
def get_summary_writer_log_dir (ex : String → Bool) (logDir pre : String) : String :=
  probeRunDir ex logDir pre 0

/-! ## Trainer (train_cifar.py lines 214-356)

The trainer is embedded as explicit state passing.  `TrainerState` is the
spec's TrainingState — the global step counter (`self.step`, line 232), the
current epoch index (the `epoch` loop variable of `train`), the model's
train/eval mode — together with the trace of observable events (summary
writer and stdout emissions, mode switches, `validate()` invocations).
Forward/backward/optimizer calls operate on opaque tensors and emit no
observable event the claims mention, so they appear as no observable step;
the accumulated validation labels/predictions and average loss are passed
in as parameters `vl`, `vp`, `al`. -/

/-- The model's mode: `model.train()` vs `model.eval()`. -/
inductive Mode
  | training
  | eval
  deriving DecidableEq

/-- Observable events of a training run. -/
inductive Event
  | setMode (m : Mode)
  | logMetrics (epoch step : Nat)
  | printMetrics (epoch step : Nat)
  | epochScalar (epoch step : Nat)
  | validateCall (epoch : Nat)
  | valAccuracy (value : ℚ) (step : Nat)
  | valLoss (value : ℚ) (step : Nat)
  deriving DecidableEq

/-- The trainer's mutable state plus the event trace. -/
structure TrainerState where
  step : Nat
  epoch : Nat
  mode : Mode
  events : List Event
  deriving DecidableEq

/-- The state right after `Trainer.__init__` (line 232 sets `self.step = 0`;
a fresh torch module is in training mode; nothing has been emitted). -/
def initialTrainerState : TrainerState :=
  { step := 0, epoch := 0, mode := Mode.training, events := [] }

/-- Embeds one iteration of the batch loop of `Trainer.train`
(lines 246-281): after the forward/backward/optimizer work, the code logs
when `(self.step + 1) % log_frequency == 0`, prints when
`(self.step + 1) % print_frequency == 0`, and then does `self.step += 1`. -/
def trainBatch (lf pf : Nat) (s : TrainerState) : TrainerState :=
  let logEvs := if (s.step + 1) % lf == 0 then [Event.logMetrics s.epoch s.step] else []
  let printEvs := if (s.step + 1) % pf == 0 then [Event.printMetrics s.epoch s.step] else []
  { s with events := s.events ++ logEvs ++ printEvs, step := s.step + 1 }

/-- The batch loop of one epoch: `n` batches from the train loader. -/
def runBatches (lf pf : Nat) : Nat → TrainerState → TrainerState
  | 0, s => s
  | n + 1, s => runBatches lf pf n (trainBatch lf pf s)

/-- Embeds `Trainer.validate` (lines 321-356): `self.model.eval()`, a pass
over the validation loader accumulating predictions/labels/loss (the
accumulated label and prediction sequences are `vl` and `vp`, the average
loss is `al`), then `add_scalars("accuracy", {"test": accuracy.sum() /
len(accuracy)}, self.step)` and `add_scalars("loss", {"test":
average_loss}, self.step)`.  `self.step` is read for the log timeline and
nothing of the training state is written. -/
def Trainer.validate (vl vp : List Nat) (al : ℚ) (s : TrainerState) : TrainerState :=
  { s with
    mode := Mode.eval,
    events := s.events ++ [Event.valAccuracy (testAccuracyValue vl vp) s.step,
                           Event.valLoss al s.step] }

/-- Embeds one iteration of the epoch loop of `Trainer.train`
(lines 243-288): `self.model.train()`, the batch loop, `add_scalar("epoch",
epoch, self.step)`, and `if ((epoch + 1) % val_frequency) == 0:
self.validate(); self.model.train()`.  The `Event.validateCall epoch`
marker records the `self.validate()` invocation itself. -/
def epochBody (V pf lf nB : Nat) (vl vp : List Nat) (al : ℚ) (e : Nat)
    (s : TrainerState) : TrainerState :=
  let s1 : TrainerState := { s with mode := Mode.training, epoch := e }
  let s2 := runBatches lf pf nB s1
  let s3 : TrainerState := { s2 with events := s2.events ++ [Event.epochScalar e s2.step] }
  if (e + 1) % V == 0 then
    let s4 : TrainerState := { s3 with events := s3.events ++ [Event.validateCall e] }
    let s5 := Trainer.validate vl vp al s4
    { s5 with mode := Mode.training }
  else s3

/-- Embeds `Trainer.train(epochs, val_frequency, print_frequency,
log_frequency, start_epoch)` (lines 234-288): `self.model.train()`, then
the epoch loop `for epoch in range(start_epoch, epochs)`.  Each epoch pulls
`nB` batches from the train loader (`len(self.train_loader)` is fixed
across epochs). -/
def Trainer.train (E V pf lf nB : Nat) (vl vp : List Nat) (al : ℚ)
    (startEpoch : Nat) (s : TrainerState) : TrainerState :=
  (List.range' startEpoch (E - startEpoch)).foldl
    (fun st e => epochBody V pf lf nB vl vp al e st)
    { s with mode := Mode.training }

/-- Whether an event is the invocation marker of `self.validate()`. -/
def isValidateCall (ev : Event) : Bool :=
  match ev with
  | Event.validateCall _ => true
  | _ => false

/-- The epochs at which `self.validate()` was invoked, read off a trace. -/
def valCalls (l : List Event) : List Nat :=
  l.filterMap fun ev =>
    match ev with
    | Event.validateCall e => some e
    | _ => none

/-! ## Helper lemmas about `compute_accuracy` -/

/-- On equal-length nonempty inputs, `compute_accuracy` returns the count of
agreeing positions divided by the length. -/
theorem compute_accuracy_ok (labels preds : List Nat)
    (hlen : labels.length = preds.length) (hne : labels ≠ []) :
    compute_accuracy labels preds =
      Except.ok (((labels.zip preds).countP (fun q => q.1 == q.2) : ℚ) / (labels.length : ℚ)) := by
  have h0 : labels.length ≠ 0 := fun h => hne (List.length_eq_zero.mp h)
  unfold compute_accuracy
  rw [if_pos hlen, if_neg h0]

/-- The zipped list has the common length on equal-length inputs. -/
theorem length_zip_eq (labels preds : List Nat) (hlen : labels.length = preds.length) :
    (labels.zip preds).length = labels.length := by
  rw [List.length_zip, hlen, min_self]

/-! ## Claims C2, C7, C10 -/

/-- C2 (amended): for every pair of equal-length *nonempty* 1-D
label/prediction sequences, `compute_accuracy` returns the fraction of
positions at which label and prediction are equal; this value lies in
[0,1], equals 1 iff all pairs match, and equals 0 iff no pair matches.
(The empty pair — equal lengths — instead raises `ZeroDivisionError`, see
the counterexample.) -/
theorem computeAccuracy_fraction_bounds (labels preds : List Nat)
    (hlen : labels.length = preds.length) (hne : labels ≠ []) :
    compute_accuracy labels preds =
      Except.ok (((labels.zip preds).countP (fun q => q.1 == q.2) : ℚ) / (labels.length : ℚ))
    ∧ 0 ≤ (((labels.zip preds).countP (fun q => q.1 == q.2) : ℚ) / (labels.length : ℚ))
    ∧ (((labels.zip preds).countP (fun q => q.1 == q.2) : ℚ) / (labels.length : ℚ)) ≤ 1
    ∧ ((((labels.zip preds).countP (fun q => q.1 == q.2) : ℚ) / (labels.length : ℚ)) = 1 ↔
        ∀ q ∈ labels.zip preds, q.1 = q.2)
    ∧ ((((labels.zip preds).countP (fun q => q.1 == q.2) : ℚ) / (labels.length : ℚ)) = 0 ↔
        ∀ q ∈ labels.zip preds, q.1 ≠ q.2) := by
  have h0 : labels.length ≠ 0 := fun h => hne (List.length_eq_zero.mp h)
  have hpos : (0 : ℚ) < (labels.length : ℚ) := by
    exact_mod_cast Nat.pos_of_ne_zero h0
  have hzl : (labels.zip preds).length = labels.length := length_zip_eq labels preds hlen
  have hle : (labels.zip preds).countP (fun q => q.1 == q.2) ≤ labels.length := by
    rw [← hzl]; exact List.countP_le_length _
  refine ⟨compute_accuracy_ok labels preds hlen hne, ?_, ?_, ?_, ?_⟩
  · exact div_nonneg (by positivity) (le_of_lt hpos)
  · rw [div_le_one hpos]
    exact_mod_cast hle
  · rw [div_eq_one_iff_eq (ne_of_gt hpos)]
    rw [Nat.cast_inj, ← hzl, List.countP_eq_length]
    constructor
    · intro h q hq
      simpa using h q hq
    · intro h q hq
      simpa using h q hq
  · rw [div_eq_zero_iff]
    have hln : ((labels.length : ℚ) = 0) ↔ False := iff_false_intro (ne_of_gt hpos)
    rw [hln, or_false, Nat.cast_eq_zero, List.countP_eq_zero]
    constructor
    · intro h q hq
      simpa using h q hq
    · intro h q hq
      simpa using h q hq

/-- Witness for C2 at labels = [0,1], preds = [0,0]: accuracy 1/2. -/
theorem computeAccuracy_fraction_bounds_witness :
    ([0, 1] : List Nat).length = ([0, 0] : List Nat).length
    ∧ ([0, 1] : List Nat) ≠ []
    ∧ compute_accuracy [0, 1] [0, 0] =
        Except.ok (((([0, 1] : List Nat).zip [0, 0]).countP (fun q => q.1 == q.2) : ℚ) /
          ((([0, 1] : List Nat).length : ℚ))) :=
  ⟨by decide, by decide,
    (computeAccuracy_fraction_bounds [0, 1] [0, 0] (by decide) (by decide)).1⟩

/-- C2 counterexample: on the empty pair — which has equal lengths — the
code raises `ZeroDivisionError` and returns no value, so the claim as
stated (a fraction is returned for *every* equal-length pair) is false. -/
theorem computeAccuracy_empty_no_value :
    ([] : List Nat).length = ([] : List Nat).length
    ∧ (compute_accuracy [] []).isOk = false := by
  constructor
  · rfl
  · rfl

/-- C7: on mismatched-length inputs `compute_accuracy` raises
`AssertionError` (the `assert len(labels) == len(preds)` precondition);
it never truncates and returns no value. -/
theorem computeAccuracy_length_mismatch_raises (labels preds : List Nat)
    (h : labels.length ≠ preds.length) :
    compute_accuracy labels preds = Except.error PyError.assertionError := by
  simp [compute_accuracy, h]

/-- Witness for C7 at labels = [0], preds = []. -/
theorem computeAccuracy_length_mismatch_raises_witness :
    ([0] : List Nat).length ≠ ([] : List Nat).length
    ∧ compute_accuracy [0] [] = Except.error PyError.assertionError :=
  ⟨by decide, computeAccuracy_length_mismatch_raises [0] [] (by decide)⟩

/-- C10: on the empty pair (equal lengths, so the assert passes) the
division `... / len(labels)` raises `ZeroDivisionError`; no value is
returned. -/
theorem computeAccuracy_empty_zero_division :
    compute_accuracy [] [] = Except.error PyError.zeroDivisionError := by
  rfl

/-! ## Claim C3 -/

/-- C3: `CNN.forward` on an input of shape (N,3,32,32) always produces an
output of shape (N,10) — `self.fc2 = nn.Linear(1024, 10)` hardcodes the
literal 10 — so for a model constructed with `class_count = 11` the output
shape is (N,10), not (N,class_count).  The claim (output shape
(N, class_count) for every class_count) is therefore right about the
intent and wrong about the code. -/
theorem cnnForward_output_class_dim_hardcoded (n cc : Nat) :
    CNN.forwardShape ⟨32, 32, 3, cc⟩ ⟨n, 3, 32, 32⟩ = some ⟨n, 10⟩
    ∧ CNN.forwardShape ⟨32, 32, 3, 11⟩ ⟨2, 3, 32, 32⟩ ≠ some ⟨2, 11⟩ := by
  constructor
  · simp [CNN.forwardShape, conv2dShape, batchNorm2dShape, maxPool2Shape,
      flattenShape, linearShape, batchNorm1dShape]
  · decide

/-! ## Helper lemmas about `compute_per_class_accuracy` -/

/-- Running the per-class loop over pairs whose labels are all in range
adds, to each cell `c`, the number of `(c, c)` pairs (correct predictions of
class `c`) in `classes` and the number of pairs with label `c` in `f_v`. -/
theorem perClassLoop_spec (K : Nat) (ps : List (Nat × Nat)) :
    ∀ (classes f_v : Fin K → ℚ), (∀ q ∈ ps, q.1 < K) →
    perClassLoop K classes f_v ps = Except.ok
      (fun c => classes c + (ps.countP (fun q => q.1 == c.val && q.2 == c.val) : ℚ),
       fun c => f_v c + (ps.countP (fun q => q.1 == c.val) : ℚ)) := by
  induction ps with
  | nil =>
    intro classes f_v _
    simp [perClassLoop]
  | cons hd tl ih =>
    intro classes f_v hall
    obtain ⟨l, p⟩ := hd
    have hl : l < K := hall (l, p) (List.mem_cons_self _ _)
    have htl : ∀ q ∈ tl, q.1 < K := fun q hq => hall q (List.mem_cons_of_mem _ hq)
    rw [perClassLoop, dif_pos hl, ih _ _ htl]
    refine congrArg Except.ok ?_
    rw [Prod.mk.injEq]
    constructor
    · funext c
      rw [List.countP_cons]
      by_cases hcl : c = ⟨l, hl⟩
      · subst hcl
        by_cases hlp : l = p
        · subst hlp
          simp [setFin]
          ring
        · have hpl : (p == l) = false := by
            rw [beq_eq_false_iff_ne]
            exact fun h => hlp h.symm
          simp [setFin, if_neg hlp, hpl]
      · have hlc : (l == (c : Fin K).val) = false := by
          rw [beq_eq_false_iff_ne]
          exact fun h => hcl (Fin.ext h.symm)
        simp only [hlc, Bool.false_and, if_neg Bool.false_ne_true, Nat.add_zero]
        by_cases hlp : l = p
        · rw [if_pos hlp]
          simp [setFin, hcl]
        · rw [if_neg hlp]
    · funext c
      rw [List.countP_cons]
      by_cases hcl : c = ⟨l, hl⟩
      · subst hcl
        simp [setFin]
        ring
      · have hlc : (l == (c : Fin K).val) = false := by
          rw [beq_eq_false_iff_ne]
          exact fun h => hcl (Fin.ext h.symm)
        simp [setFin, hcl, hlc]

/-- Counting pairs of the zip whose first component is `c` counts the
occurrences of `c` among the labels. -/
theorem countP_zip_fst (c : Nat) :
    ∀ (l1 l2 : List Nat), l1.length = l2.length →
    (l1.zip l2).countP (fun q => q.1 == c) = l1.count c := by
  intro l1
  induction l1 with
  | nil =>
    intro l2 _
    simp
  | cons x xs ih =>
    intro l2 h
    cases l2 with
    | nil => simp at h
    | cons y ys =>
      simp only [List.zip_cons_cons, List.countP_cons, List.count_cons]
      rw [ih ys (by simpa using h)]

/-- If every label is below the number of distinct labels, the observed
labels are exactly `{0, …, K-1}` with `K` the number of distinct labels. -/
theorem labels_toFinset_range (labels : List Nat)
    (hcover : ∀ l ∈ labels, l < labels.dedup.length) :
    labels.toFinset = Finset.range labels.dedup.length := by
  have hsub : labels.toFinset ⊆ Finset.range labels.dedup.length := by
    intro x hx
    exact Finset.mem_range.mpr (hcover x (List.mem_toFinset.mp hx))
  refine Finset.eq_of_subset_of_card_le hsub ?_
  rw [Finset.card_range, List.card_toFinset]

/-- Under the coverage hypothesis, every class below `K` occurs among the
labels. -/
theorem mem_of_lt_dedup_length (labels : List Nat)
    (hcover : ∀ l ∈ labels, l < labels.dedup.length)
    (c : Nat) (hc : c < labels.dedup.length) : c ∈ labels := by
  have hr := labels_toFinset_range labels hcover
  have : c ∈ labels.toFinset := by
    rw [hr]
    exact Finset.mem_range.mpr hc
  exact List.mem_toFinset.mp this

/-- Evaluation of `compute_per_class_accuracy` on equal-length inputs whose
labels all lie below the number of distinct labels: entry `c` of the result
is (number of positions with label `c` and prediction `c`) / (number of
positions with label `c`). -/
theorem perClass_eval (labels preds : List Nat)
    (hlen : labels.length = preds.length)
    (hcover : ∀ l ∈ labels, l < labels.dedup.length) :
    compute_per_class_accuracy labels preds = Except.ok
      (List.ofFn (fun c : Fin labels.dedup.length =>
        ((labels.zip preds).countP (fun q => q.1 == c.val && q.2 == c.val) : ℚ) /
          (labels.count c.val : ℚ))) := by
  have hall : ∀ q ∈ labels.zip preds, q.1 < labels.dedup.length := by
    intro q hq
    obtain ⟨a, b⟩ := q
    exact hcover a (List.of_mem_zip hq).1
  unfold compute_per_class_accuracy
  rw [if_pos hlen, perClassLoop_spec _ _ _ _ hall]
  refine congrArg Except.ok (congrArg List.ofFn (funext fun c => ?_))
  simp only [zero_add]
  rw [countP_zip_fst _ labels preds hlen]

/-! ## Claim C1 -/

/-- C1 (amended): for equal-length nonempty label/prediction sequences whose
observed labels are exactly `{0, …, m}` (equivalently: every label is below
the number of distinct labels), `compute_per_class_accuracy` returns, for
each class index from 0 up to the maximum observed label
`m = (number of distinct labels) - 1`, the fraction of that class's
examples that were correctly predicted; every such class occurs at least
once among the labels, so no `NaN`-like ratio ever arises on a successful
return.  (A class with zero occurrences below the maximum observed label
instead makes the function raise `IndexError` — see the counterexample.) -/
theorem perClassAccuracy_contiguous_fractions (labels preds : List Nat)
    (hlen : labels.length = preds.length) (hne : labels ≠ [])
    (hcover : ∀ l ∈ labels, l < labels.dedup.length) :
    compute_per_class_accuracy labels preds = Except.ok
      (List.ofFn (fun c : Fin labels.dedup.length =>
        ((labels.zip preds).countP (fun q => q.1 == c.val && q.2 == c.val) : ℚ) /
          (labels.count c.val : ℚ)))
    ∧ (labels.dedup.length - 1) ∈ labels
    ∧ (∀ l ∈ labels, l ≤ labels.dedup.length - 1)
    ∧ (∀ c, c < labels.dedup.length → 0 < labels.count c) := by
  have hK : 0 < labels.dedup.length :=
    List.length_pos.mpr fun h => hne ((List.dedup_eq_nil labels).mp h)
  refine ⟨perClass_eval labels preds hlen hcover, ?_, ?_, ?_⟩
  · exact mem_of_lt_dedup_length labels hcover _ (Nat.sub_lt hK one_pos)
  · intro l hlmem
    have := hcover l hlmem
    omega
  · intro c hc
    rw [List.count_pos_iff]
    exact mem_of_lt_dedup_length labels hcover c hc

/-- Witness for C1 at the claim's own example: labels = [0,0,1,1],
preds = [0,1,1,0] give class 0 accuracy 1/2 and class 1 accuracy 1/2. -/
theorem perClassAccuracy_contiguous_fractions_witness :
    (([0, 0, 1, 1] : List Nat).length = ([0, 1, 1, 0] : List Nat).length
      ∧ ([0, 0, 1, 1] : List Nat) ≠ []
      ∧ ∀ l ∈ ([0, 0, 1, 1] : List Nat), l < ([0, 0, 1, 1] : List Nat).dedup.length)
    ∧ compute_per_class_accuracy [0, 0, 1, 1] [0, 1, 1, 0] =
        Except.ok [(1 : ℚ) / 2, (1 : ℚ) / 2] := by
  refine ⟨⟨by decide, by decide, by decide⟩, ?_⟩
  rw [(perClassAccuracy_contiguous_fractions [0, 0, 1, 1] [0, 1, 1, 0]
    (by decide) (by decide) (by decide)).1]
  refine congrArg Except.ok ?_
  show List.ofFn (fun c : Fin 2 =>
    (((([0, 0, 1, 1] : List Nat).zip [0, 1, 1, 0]).countP
        (fun q => q.1 == c.val && q.2 == c.val)) : ℚ) /
      ((([0, 0, 1, 1] : List Nat).count c.val) : ℚ)) = [(1 : ℚ) / 2, (1 : ℚ) / 2]
  rw [List.ofFn_succ, List.ofFn_succ, List.ofFn_zero]
  norm_num

/-- C1 counterexample: for labels = [1], preds = [1], class 0 has zero
occurrences below the maximum observed label 1, and the claim predicts a
returned ratio vector with a NaN-like entry for class 0; the code instead
indexes `f_v[1]` on the length-1 arrays (`len(np.unique([1])) == 1`) and
raises `IndexError`, returning nothing. -/
theorem perClassAccuracy_missing_class_raises :
    (compute_per_class_accuracy [1] [1]).isOk = false
    ∧ compute_per_class_accuracy [1] [1] = Except.error PyError.indexError := by
  constructor
  · rfl
  · rfl

/-! ## Claim C9 -/

/-- When the per-class computation succeeds, the value written as the
overall test accuracy is the mean of the per-class vector. -/
theorem testAccuracyValue_eq (labels preds : List Nat) (acc : List ℚ)
    (h : compute_per_class_accuracy labels preds = Except.ok acc) :
    testAccuracyValue labels preds = acc.sum / (acc.length : ℚ) := by
  unfold testAccuracyValue
  rw [h]

/-- Concrete evaluation: labels [0,0,0,1], preds [0,0,0,0] give per-class
accuracies [1, 0]. -/
theorem perClass_eval_imbalanced :
    compute_per_class_accuracy [0, 0, 0, 1] [0, 0, 0, 0] = Except.ok [(1 : ℚ), 0] := by
  rw [perClass_eval [0, 0, 0, 1] [0, 0, 0, 0] (by decide) (by decide)]
  refine congrArg Except.ok ?_
  show List.ofFn (fun c : Fin 2 =>
    (((([0, 0, 0, 1] : List Nat).zip [0, 0, 0, 0]).countP
        (fun q => q.1 == c.val && q.2 == c.val)) : ℚ) /
      ((([0, 0, 0, 1] : List Nat).count c.val) : ℚ)) = [(1 : ℚ), 0]
  rw [List.ofFn_succ, List.ofFn_succ, List.ofFn_zero]
  norm_num

/-- Concrete evaluation: labels [0,0,1,1,1,1], preds [0,1,0,0,1,1] give
per-class accuracies [1/2, 1/2]. -/
theorem perClass_eval_balanced_acc :
    compute_per_class_accuracy [0, 0, 1, 1, 1, 1] [0, 1, 0, 0, 1, 1] =
      Except.ok [(1 : ℚ) / 2, (1 : ℚ) / 2] := by
  rw [perClass_eval [0, 0, 1, 1, 1, 1] [0, 1, 0, 0, 1, 1] (by decide) (by decide)]
  refine congrArg Except.ok ?_
  show List.ofFn (fun c : Fin 2 =>
    (((([0, 0, 1, 1, 1, 1] : List Nat).zip [0, 1, 0, 0, 1, 1]).countP
        (fun q => q.1 == c.val && q.2 == c.val)) : ℚ) /
      ((([0, 0, 1, 1, 1, 1] : List Nat).count c.val) : ℚ)) = [(1 : ℚ) / 2, (1 : ℚ) / 2]
  rw [List.ofFn_succ, List.ofFn_succ, List.ofFn_zero]
  norm_num

/-- C9 (amended): the single overall validation accuracy value emitted to
the metrics sink is `accuracy.sum() / len(accuracy)`, the unweighted
arithmetic mean of the per-class accuracies (macro average).  This is a
genuinely different quantity from the overall fraction of correct
predictions (micro average): on labels [0,0,0,1] with preds [0,0,0,0] the
emitted value is 1/2 while the overall fraction is 3/4.  (The two can
nevertheless coincide on inputs with unequal class sizes — see the
counterexample — so they do not differ *whenever* class sizes differ.) -/
theorem validate_macro_average (labels preds : List Nat) (acc : List ℚ)
    (h : compute_per_class_accuracy labels preds = Except.ok acc) :
    testAccuracyValue labels preds = acc.sum / (acc.length : ℚ)
    ∧ testAccuracyValue [0, 0, 0, 1] [0, 0, 0, 0] = (1 : ℚ) / 2
    ∧ compute_accuracy [0, 0, 0, 1] [0, 0, 0, 0] = Except.ok ((3 : ℚ) / 4)
    ∧ ((1 : ℚ) / 2) ≠ ((3 : ℚ) / 4) := by
  refine ⟨testAccuracyValue_eq labels preds acc h, ?_, ?_, by norm_num⟩
  · rw [testAccuracyValue_eq _ _ _ perClass_eval_imbalanced]
    norm_num
  · rw [compute_accuracy_ok [0, 0, 0, 1] [0, 0, 0, 0] (by decide) (by decide)]
    have h3 : (([0, 0, 0, 1] : List Nat).zip [0, 0, 0, 0]).countP
        (fun q => q.1 == q.2) = 3 := by decide
    rw [h3]
    norm_num

/-- Witness for C9 at labels [0,0,0,1], preds [0,0,0,0]. -/
theorem validate_macro_average_witness :
    compute_per_class_accuracy [0, 0, 0, 1] [0, 0, 0, 0] = Except.ok [(1 : ℚ), 0]
    ∧ testAccuracyValue [0, 0, 0, 1] [0, 0, 0, 0] =
        ([(1 : ℚ), 0].sum / (([(1 : ℚ), 0].length : ℚ))) :=
  ⟨perClass_eval_imbalanced,
    (validate_macro_average [0, 0, 0, 1] [0, 0, 0, 0] [(1 : ℚ), 0] perClass_eval_imbalanced).1⟩

/-- C9 counterexample: the claim's "the two differ whenever class sizes
differ" is false — on labels [0,0,1,1,1,1] (class sizes 2 and 4) with
preds [0,1,0,0,1,1] the macro average emitted by validate and the overall
fraction of correct predictions are both 1/2. -/
theorem validate_macro_equals_micro_with_unequal_classes :
    ([0, 0, 1, 1, 1, 1] : List Nat).count 0 ≠ ([0, 0, 1, 1, 1, 1] : List Nat).count 1
    ∧ compute_accuracy [0, 0, 1, 1, 1, 1] [0, 1, 0, 0, 1, 1] = Except.ok ((1 : ℚ) / 2)
    ∧ testAccuracyValue [0, 0, 1, 1, 1, 1] [0, 1, 0, 0, 1, 1] = (1 : ℚ) / 2 := by
  refine ⟨by decide, ?_, ?_⟩
  · rw [compute_accuracy_ok [0, 0, 1, 1, 1, 1] [0, 1, 0, 0, 1, 1] (by decide) (by decide)]
    have h3 : (([0, 0, 1, 1, 1, 1] : List Nat).zip [0, 1, 0, 0, 1, 1]).countP
        (fun q => q.1 == q.2) = 3 := by decide
    rw [h3]
    norm_num
  · rw [testAccuracyValue_eq _ _ _ perClass_eval_balanced_acc]
    norm_num

/-! ## Claim C4 -/

/-- If `ex` holds on every probed path from `i` up to (but excluding) a
first free suffix `j < 1000`, the probe returns the path with suffix `j`. -/
theorem probeRunDir_found_aux (ex : String → Bool) (logDir pre : String) (j : Nat)
    (hj : j < 1000) (hfalse : ex (mkRunPath logDir pre j) = false) :
    ∀ (n i : Nat), j - i ≤ n → i ≤ j →
    (∀ k, i ≤ k → k < j → ex (mkRunPath logDir pre k) = true) →
    probeRunDir ex logDir pre i = mkRunPath logDir pre j := by
  intro n
  induction n with
  | zero =>
    intro i hni hij _
    have hi : i = j := by omega
    subst hi
    rw [probeRunDir, dif_pos hj, hfalse]
    simp
  | succ n ih =>
    intro i hni hij htrue
    by_cases hi : i = j
    · subst hi
      rw [probeRunDir, dif_pos hj, hfalse]
      simp
    · have hlt : i < j := lt_of_le_of_ne hij hi
      have hex : ex (mkRunPath logDir pre i) = true := htrue i le_rfl hlt
      rw [probeRunDir, dif_pos (Nat.lt_trans hlt hj), hex]
      simp only [if_true]
      exact ih (i + 1) (by omega) hlt (fun k hk1 hk2 => htrue k (by omega) hk2)

/-- If every probed path from `i` through 999 exists, the probe falls
through the loop and returns the suffix-999 path. -/
theorem probeRunDir_all_taken (ex : String → Bool) (logDir pre : String) :
    ∀ (n i : Nat), 1000 - i ≤ n →
    (∀ k, i ≤ k → k < 1000 → ex (mkRunPath logDir pre k) = true) →
    probeRunDir ex logDir pre i = mkRunPath logDir pre 999 := by
  intro n
  induction n with
  | zero =>
    intro i hni _
    rw [probeRunDir, dif_neg (by omega)]
  | succ n ih =>
    intro i hni htrue
    by_cases hi : i < 1000
    · have hex : ex (mkRunPath logDir pre i) = true := htrue i le_rfl hi
      rw [probeRunDir, dif_pos hi, hex]
      simp only [if_true]
      exact ih (i + 1) (by omega) (fun k hk1 hk2 => htrue k (by omega) hk2)
    · rw [probeRunDir, dif_neg hi]

/-- C4: for every filesystem state, base log directory and descriptive
prefix, `get_summary_writer_log_dir` returns the path with the smallest
suffix `j < 1000` whose path does not already exist (probing suffixes
0,1,2,… in order), and if all 1000 probed paths exist it returns the
suffix-999 path without raising. -/
theorem logDir_first_free_suffix (ex : String → Bool) (logDir pre : String) :
    (∀ j, j < 1000 → ex (mkRunPath logDir pre j) = false →
      (∀ k, k < j → ex (mkRunPath logDir pre k) = true) →
      get_summary_writer_log_dir ex logDir pre = mkRunPath logDir pre j)
    ∧ ((∀ j, j < 1000 → ex (mkRunPath logDir pre j) = true) →
      get_summary_writer_log_dir ex logDir pre = mkRunPath logDir pre 999) := by
  constructor
  · intro j hj hfalse htrue
    exact probeRunDir_found_aux ex logDir pre j hj hfalse j 0 (by omega) (Nat.zero_le j)
      (fun k _ hk2 => htrue k hk2)
  · intro hall
    exact probeRunDir_all_taken ex logDir pre 1000 0 (by omega)
      (fun k _ hk2 => hall k hk2)

/-- Witness for C4: with only the suffix-0 path existing, the returned run
directory is the suffix-1 path. -/
theorem logDir_first_free_suffix_witness :
    ((fun s => s == mkRunPath "logs" "CNN_run_" 0) (mkRunPath "logs" "CNN_run_" 1) = false)
    ∧ get_summary_writer_log_dir (fun s => s == mkRunPath "logs" "CNN_run_" 0) "logs" "CNN_run_" =
        mkRunPath "logs" "CNN_run_" 1 := by
  refine ⟨by decide, ?_⟩
  refine (logDir_first_free_suffix (fun s => s == mkRunPath "logs" "CNN_run_" 0)
    "logs" "CNN_run_").1 1 (by decide) (by decide) ?_
  intro k hk
  have hk0 : k = 0 := by omega
  subst hk0
  decide

/-! ## Helper lemmas about the trainer -/

/-- Each processed batch increments the step counter by exactly one. -/
theorem trainBatch_step (lf pf : Nat) (s : TrainerState) :
    (trainBatch lf pf s).step = s.step + 1 := rfl

/-- Processing a batch does not touch the model's mode. -/
theorem trainBatch_mode (lf pf : Nat) (s : TrainerState) :
    (trainBatch lf pf s).mode = s.mode := rfl

/-- The batch loop adds exactly the number of batches to the step counter. -/
theorem runBatches_step (lf pf : Nat) :
    ∀ (n : Nat) (s : TrainerState), (runBatches lf pf n s).step = s.step + n := by
  intro n
  induction n with
  | zero => intro s; rfl
  | succ n ih =>
    intro s
    rw [runBatches, ih, trainBatch_step]
    omega

/-- The batch loop does not touch the model's mode. -/
theorem runBatches_mode (lf pf : Nat) :
    ∀ (n : Nat) (s : TrainerState), (runBatches lf pf n s).mode = s.mode := by
  intro n
  induction n with
  | zero => intro s; rfl
  | succ n ih =>
    intro s
    rw [runBatches, ih, trainBatch_mode]

theorem valCalls_append (l1 l2 : List Event) :
    valCalls (l1 ++ l2) = valCalls l1 ++ valCalls l2 :=
  List.filterMap_append l1 l2 _

theorem mem_valCalls (e : Nat) (l : List Event) :
    e ∈ valCalls l ↔ Event.validateCall e ∈ l := by
  unfold valCalls
  rw [List.mem_filterMap]
  constructor
  · rintro ⟨a, ha, hfa⟩
    cases a <;> simp_all
  · intro h
    exact ⟨Event.validateCall e, h, rfl⟩

theorem countP_eq_valCalls_length :
    ∀ (l : List Event), l.countP isValidateCall = (valCalls l).length := by
  intro l
  induction l with
  | nil => rfl
  | cons ev tl ih =>
    cases ev <;> simp [List.countP_cons, isValidateCall, valCalls, List.filterMap_cons, ih,
      valCalls.eq_def]

/-- A batch emits no validate-call marker. -/
theorem valCalls_trainBatch (lf pf : Nat) (s : TrainerState) :
    valCalls (trainBatch lf pf s).events = valCalls s.events := by
  unfold trainBatch
  dsimp only
  rw [valCalls_append, valCalls_append]
  split <;> split <;> simp [valCalls]

theorem valCalls_runBatches (lf pf : Nat) :
    ∀ (n : Nat) (s : TrainerState),
    valCalls (runBatches lf pf n s).events = valCalls s.events := by
  intro n
  induction n with
  | zero => intro s; rfl
  | succ n ih =>
    intro s
    rw [runBatches, ih, valCalls_trainBatch]

/-- `validate` itself emits no validate-call marker (the marker is placed at
the call site in the epoch loop). -/
theorem valCalls_validate (vl vp : List Nat) (al : ℚ) (s : TrainerState) :
    valCalls (Trainer.validate vl vp al s).events = valCalls s.events := by
  unfold Trainer.validate
  rw [valCalls_append]
  simp [valCalls]

/-- One epoch's trace adds the marker of epoch `e` exactly when
`(e + 1) % val_frequency == 0`. -/
theorem valCalls_epochBody (V pf lf nB : Nat) (vl vp : List Nat) (al : ℚ)
    (e : Nat) (s : TrainerState) :
    valCalls (epochBody V pf lf nB vl vp al e s).events =
      valCalls s.events ++ (if (e + 1) % V == 0 then [e] else []) := by
  unfold epochBody
  by_cases h : ((e + 1) % V == 0) = true
  · simp only [h, if_true]
    unfold Trainer.validate
    dsimp only
    rw [valCalls_append, valCalls_append, valCalls_append, valCalls_runBatches]
    simp [valCalls]
  · simp only [h, if_false, Bool.false_eq_true]
    rw [valCalls_append, valCalls_runBatches]
    simp [valCalls, h]

theorem valCalls_foldl (V pf lf nB : Nat) (vl vp : List Nat) (al : ℚ) :
    ∀ (l : List Nat) (s : TrainerState),
    valCalls ((l.foldl (fun st e => epochBody V pf lf nB vl vp al e st) s)).events =
      valCalls s.events ++ l.filter (fun e => (e + 1) % V == 0) := by
  intro l
  induction l with
  | nil => intro s; simp
  | cons e tl ih =>
    intro s
    rw [List.foldl_cons, ih, valCalls_epochBody, List.filter_cons]
    by_cases h : ((e + 1) % V == 0) = true
    · simp [h]
    · simp [h]

/-- The validate-call markers of a whole training run started at epoch 0:
exactly the epochs `e < E` with `(e + 1) % V == 0`, in order. -/
theorem valCalls_train (E V pf lf nB : Nat) (vl vp : List Nat) (al : ℚ)
    (s : TrainerState) :
    valCalls (Trainer.train E V pf lf nB vl vp al 0 s).events =
      valCalls s.events ++ (List.range E).filter (fun e => (e + 1) % V == 0) := by
  unfold Trainer.train
  rw [Nat.sub_zero, ← List.range_eq_range', valCalls_foldl]

/-- Among the first `E` epochs, `(e + 1) % V == 0` holds for exactly
`E / V` of them. -/
theorem countValRange (V : Nat) :
    ∀ (E : Nat), ((List.range E).filter (fun e => (e + 1) % V == 0)).length = E / V := by
  intro E
  induction E with
  | zero => simp
  | succ E ih =>
    rw [List.range_succ, List.filter_append, List.length_append, ih, Nat.succ_div,
      List.filter_singleton]
    by_cases h : V ∣ E + 1
    · have hbeq : ((E + 1) % V == 0) = true := by
        simpa using Nat.dvd_iff_mod_eq_zero.mp h
      simp [hbeq, h]
    · have hbeq : ((E + 1) % V == 0) = false := by
        rw [beq_eq_false_iff_ne]
        exact fun hc => h (Nat.dvd_iff_mod_eq_zero.mpr hc)
      simp [hbeq, h]

/-- One epoch adds exactly `nB` (the per-epoch batch count) to the step
counter, whether or not it validates. -/
theorem epochBody_step (V pf lf nB : Nat) (vl vp : List Nat) (al : ℚ)
    (e : Nat) (s : TrainerState) :
    (epochBody V pf lf nB vl vp al e s).step = s.step + nB := by
  unfold epochBody
  by_cases h : ((e + 1) % V == 0) = true
  · simp [h, Trainer.validate, runBatches_step]
  · simp [h, runBatches_step]

/-- One epoch ends with the model back in training mode. -/
theorem epochBody_mode (V pf lf nB : Nat) (vl vp : List Nat) (al : ℚ)
    (e : Nat) (s : TrainerState) :
    (epochBody V pf lf nB vl vp al e s).mode = Mode.training := by
  unfold epochBody
  by_cases h : ((e + 1) % V == 0) = true
  · simp [h, Trainer.validate]
  · simp [h, runBatches_mode]

theorem foldl_step (V pf lf nB : Nat) (vl vp : List Nat) (al : ℚ) :
    ∀ (l : List Nat) (s : TrainerState),
    ((l.foldl (fun st e => epochBody V pf lf nB vl vp al e st) s)).step =
      s.step + l.length * nB := by
  intro l
  induction l with
  | nil => intro s; simp
  | cons e tl ih =>
    intro s
    rw [List.foldl_cons, ih, epochBody_step, List.length_cons]
    ring

/-! ## Claims C5, C6, C8 -/

/-- C5: a training run of `E` epochs from epoch 0 with `val_frequency = V ≥ 1`
invokes `validate()` at the end of epoch `e` exactly when `e < E` and
`e + 1` is a positive multiple of `V` (i.e. at epochs V-1, 2V-1, …), for a
total of exactly `⌊E / V⌋` invocations; `validate()` leaves the model in
evaluation mode and the epoch loop then switches it back to training
mode. -/
theorem train_validation_schedule (E V pf lf nB : Nat) (vl vp : List Nat) (al : ℚ)
    (e : Nat) (s : TrainerState) (_hV : 0 < V) :
    (Event.validateCall e ∈ (Trainer.train E V pf lf nB vl vp al 0 initialTrainerState).events ↔
      (e < E ∧ ∃ k, e + 1 = (k + 1) * V))
    ∧ (Trainer.train E V pf lf nB vl vp al 0 initialTrainerState).events.countP isValidateCall =
        E / V
    ∧ (Trainer.validate vl vp al s).mode = Mode.eval
    ∧ (epochBody V pf lf nB vl vp al e s).mode = Mode.training := by
  refine ⟨?_, ?_, rfl, epochBody_mode V pf lf nB vl vp al e s⟩
  · rw [← mem_valCalls, valCalls_train]
    have hinit : valCalls initialTrainerState.events = [] := rfl
    rw [hinit, List.nil_append, List.mem_filter, List.mem_range]
    constructor
    · rintro ⟨h1, h2⟩
      refine ⟨h1, ?_⟩
      have hmod : (e + 1) % V = 0 := by simpa using h2
      obtain ⟨m, hm⟩ := Nat.dvd_iff_mod_eq_zero.mpr hmod
      cases m with
      | zero => omega
      | succ m' => exact ⟨m', by simp [hm, Nat.mul_comm]⟩
    · rintro ⟨hE, k, hk⟩
      refine ⟨hE, ?_⟩
      have hmod : (e + 1) % V = 0 := by rw [hk]; exact Nat.mul_mod_left _ _
      simpa using hmod
  · rw [countP_eq_valCalls_length, valCalls_train]
    have hinit : valCalls initialTrainerState.events = [] := rfl
    rw [hinit, List.nil_append]
    exact countValRange V E

/-- Witness for C5 at E = 4, V = 2: validation happens at epochs 1 and 3,
i.e. exactly 4 / 2 = 2 times. -/
theorem train_validation_schedule_witness :
    0 < 2
    ∧ ((Event.validateCall 1 ∈
          (Trainer.train 4 2 1 1 1 [0] [0] 0 0 initialTrainerState).events ↔
        (1 < 4 ∧ ∃ k, 1 + 1 = (k + 1) * 2))
      ∧ (Trainer.train 4 2 1 1 1 [0] [0] 0 0 initialTrainerState).events.countP
          isValidateCall = 4 / 2
      ∧ (Trainer.validate [0] [0] 0 initialTrainerState).mode = Mode.eval
      ∧ (epochBody 2 1 1 1 [0] [0] 0 1 initialTrainerState).mode = Mode.training) :=
  ⟨by decide, train_validation_schedule 4 2 1 1 1 [0] [0] 0 1 initialTrainerState (by decide)⟩

/-- C6: the step counter starts at 0 at construction, increases by exactly
1 per processed training batch, and after a run of `E` epochs of `nB`
batches each (with positive frequencies, so no `ZeroDivisionError` from the
`% log_frequency` / `% print_frequency` / `% val_frequency` checks) equals
exactly the total number of batches `E * nB`: it is never reset across
epochs. -/
theorem trainer_step_counter (E V pf lf nB : Nat) (vl vp : List Nat) (al : ℚ)
    (s : TrainerState) (n : Nat) (_hV : 0 < V) (_hlf : 0 < lf) (_hpf : 0 < pf) :
    initialTrainerState.step = 0
    ∧ (trainBatch lf pf s).step = s.step + 1
    ∧ (runBatches lf pf n s).step = s.step + n
    ∧ (Trainer.train E V pf lf nB vl vp al 0 initialTrainerState).step = E * nB := by
  refine ⟨rfl, rfl, runBatches_step lf pf n s, ?_⟩
  unfold Trainer.train
  rw [Nat.sub_zero, ← List.range_eq_range', foldl_step]
  simp [initialTrainerState]

/-- Witness for C6 at E = 2, nB = 3: the final step counter is 6. -/
theorem trainer_step_counter_witness :
    (0 < 1 ∧ 0 < 1 ∧ 0 < 1)
    ∧ (initialTrainerState.step = 0
      ∧ (trainBatch 1 1 initialTrainerState).step = initialTrainerState.step + 1
      ∧ (runBatches 1 1 5 initialTrainerState).step = initialTrainerState.step + 5
      ∧ (Trainer.train 2 1 1 1 3 [] [] 0 0 initialTrainerState).step = 2 * 3) :=
  ⟨⟨by decide, by decide, by decide⟩,
    trainer_step_counter 2 1 1 1 3 [] [] 0 initialTrainerState 5
      (by decide) (by decide) (by decide)⟩

/-- C8: `validate()` does not mutate the trainer's training state — after
any call the global step counter and the current epoch index are unchanged
(it only reads `self.step` for the log timeline). -/
theorem validate_preserves_training_state (vl vp : List Nat) (al : ℚ) (s : TrainerState) :
    (Trainer.validate vl vp al s).step = s.step
    ∧ (Trainer.validate vl vp al s).epoch = s.epoch :=
  ⟨rfl, rfl⟩
